import Mathlib

/-!
Verification of the payload field-index core: the numeric index facade
(range-bound translation, boundary checks, range cardinality) and the
memory-mapped map index (build, tombstones, query operations).
-/

namespace Qdrant

/-! ### Numeric index: key points, bounds, boundary checks -/

/-- A histogram key: an indexed value paired with its point id
(mirrors Point of the histogram module, ordered lexicographically). -/
@[ext]
structure Pt where
  val : Int
  idx : Nat
deriving DecidableEq, Repr

/-- PointOffsetType::MAX for 32-bit unsigned point ids. -/
def ptIdMax : Nat := 4294967295

/-- Lexicographic strict order on (value, point id). -/
def Pt.ltb (a b : Pt) : Bool :=
  decide (a.val < b.val) || (decide (a.val = b.val) && decide (a.idx < b.idx))

/-- Lexicographic non-strict order on (value, point id). -/
def Pt.leb (a b : Pt) : Bool :=
  decide (a.val < b.val) || (decide (a.val = b.val) && decide (a.idx ≤ b.idx))

/-- std::ops::Bound. -/
inductive Bnd (α : Type) where
  | included : α → Bnd α
  | excluded : α → Bnd α
  | unbounded : Bnd α
deriving DecidableEq, Repr

/-- Range{lt, gt, gte, lte} with every field optional, already converted to the
index value type. -/
structure NumRange where
  lt : Option Int
  gt : Option Int
  gte : Option Int
  lte : Option Int
deriving DecidableEq, Repr

/-- Range::as_index_key_bounds: the translation of a numeric range condition into
start and end key bounds. The source matches the gt arm before the gte arm for the
start bound, and the lt arm before the lte arm for the end bound. -/
def asIndexKeyBounds (r : NumRange) : Bnd Pt × Bnd Pt :=
  let startBound : Bnd Pt :=
    match r.gt with
    | some gt => .excluded ⟨gt, ptIdMax⟩
    | none =>
      match r.gte with
      | some gte => .included ⟨gte, 0⟩
      | none => .unbounded
  let endBound : Bnd Pt :=
    match r.lt with
    | some lt => .excluded ⟨lt, 0⟩
    | none =>
      match r.lte with
      | some lte => .included ⟨lte, ptIdMax⟩
      | none => .unbounded
  (startBound, endBound)

/-- Modelled from the spec: check_boundaries of field_index/utils.rs (that helper is
outside the provided sources). It returns false exactly when the interval is invalid,
that is when start is strictly greater than end, or start equals end with both bounds
exclusive; an interval with an unbounded side is always valid. -/
def checkBoundaries (s e : Bnd Pt) : Bool :=
  match s, e with
  | .excluded a, .excluded b => Pt.ltb a b
  | .excluded a, .included b => Pt.leb a b
  | .included a, .excluded b => Pt.leb a b
  | .included a, .included b => Pt.leb a b
  | _, _ => true

/-- The invalid-interval predicate as the specification words it: start strictly
greater than end, or start equal to end with both bounds exclusive. -/
def invalidBounds (s e : Bnd Pt) : Bool :=
  match s, e with
  | .excluded a, .excluded b => Pt.ltb b a || decide (a = b)
  | .excluded a, .included b => Pt.ltb b a
  | .included a, .excluded b => Pt.ltb b a
  | .included a, .included b => Pt.ltb b a
  | _, _ => false

/-- Whether a key is admitted by the start bound. -/
def inStart (s : Bnd Pt) (p : Pt) : Bool :=
  match s with
  | .included a => Pt.leb a p
  | .excluded a => Pt.ltb a p
  | .unbounded => true

/-- Whether a key is admitted by the end bound. -/
def inEnd (e : Bnd Pt) (p : Pt) : Bool :=
  match e with
  | .included b => Pt.leb p b
  | .excluded b => Pt.ltb p b
  | .unbounded => true

/-- A range scan over the sorted key store, with the panic behaviour of
BTreeMap::range made explicit: the result is none exactly on the inputs on which the
Rust call panics (start greater than end, or start equal to end with both bounds
excluded). -/
def btreeRange (s e : Bnd Pt) (store : List Pt) : Option (List Pt) :=
  if invalidBounds s e then none
  else some (store.filter (fun p => inStart s p && inEnd e p))

/-- PayloadFieldIndex::filter for a numeric range condition: translate the range to
key bounds, guard with check_boundaries (returning an empty iterator when the interval
is invalid), otherwise range-scan the store and yield the point ids. -/
def filterRange (r : NumRange) (store : List Pt) : Option (List Nat) :=
  let b := asIndexKeyBounds r
  if checkBoundaries b.1 b.2 then (btreeRange b.1 b.2 store).map (List.map Pt.idx)
  else some []

/-- StreamRange::stream_range: the same guard, yielding (value, point id) pairs. -/
def streamRange (r : NumRange) (store : List Pt) : Option (List (Int × Nat)) :=
  let b := asIndexKeyBounds r
  if checkBoundaries b.1 b.2 then
    (btreeRange b.1 b.2 store).map (List.map (fun p => (p.val, p.idx)))
  else some []

/-! ### Numeric index: range cardinality -/

/-- CardinalityEstimation {min, exp, max}; the primary clauses are omitted, the facade
attaches them outside range_cardinality. -/
structure CardEst where
  min : Nat
  exp : Nat
  max : Nat
deriving DecidableEq, Repr

/-- Modelled from the spec: CardinalityEstimation::exact(count) of field_index/mod.rs
(that constructor is outside the provided sources): min, exp and max all equal the
exact count. -/
def CardEst.exact (n : Nat) : CardEst := ⟨n, n, n⟩

/-- The histogram bounds built inside range_cardinality: there lte takes precedence
over lt, and gte over gt. -/
def cardBounds (r : NumRange) : Bnd Int × Bnd Int :=
  let lbound : Bnd Int :=
    match r.lte with
    | some lte => .included lte
    | none =>
      match r.lt with
      | some lt => .excluded lt
      | none => .unbounded
  let gbound : Bnd Int :=
    match r.gte with
    | some gte => .included gte
    | none =>
      match r.gt with
      | some gt => .excluded gt
      | none => .unbounded
  (gbound, lbound)

/-- NumericIndexInner::range_cardinality. points is get_points_count, totalValues is
total_unique_values_count and maxPerPoint is max_values_per_point. The histogram
estimate is abstracted as a function from the (gbound, lbound) pair to its (min, max)
counts, and the rounded multi-value selection estimate (an external floating-point
helper) as est. The unchecked usize subtraction totalValues - points is modelled by
returning none when it would underflow, which is a panic in the Rust code; the outer
subtraction is saturating in the source and so is Nat subtraction here. -/
def rangeCardinality (points totalValues maxPerPoint : Nat)
    (hist : Bnd Int → Bnd Int → Nat × Nat) (est : Nat) (r : NumRange) :
    Option CardEst :=
  if maxPerPoint = 0 then some (CardEst.exact 0)
  else
    let b := cardBounds r
    let minEst := (hist b.1 b.2).1
    let maxEst := (hist b.1 b.2).2
    if totalValues < points then none
    else
      let expectedMin :=
        max (minEst / maxPerPoint)
          (max (min 1 minEst) (minEst - (totalValues - points)))
      let expectedMax := min points maxEst
      some ⟨expectedMin, min expectedMax (max est expectedMin), expectedMax⟩

/-! ### Mmap map index -/

/-- Result of an mmap hashmap lookup for one value: an entry with its point-id list,
an absent key, or a per-entry read error. -/
inductive HashLookup where
  | found : List Nat → HashLookup
  | absent : HashLookup
  | corrupt : HashLookup

/-- The tombstone bitmap: a fixed bit length together with the set of indices whose
bit is one (MmapBitSlice as seen through the buffered update wrapper). -/
structure BitSlice where
  len : Nat
  ones : Finset Nat

/-- Read bit i: none when i is outside the slice. -/
def BitSlice.get (b : BitSlice) (i : Nat) : Option Bool :=
  if i < b.len then some (decide (i ∈ b.ones)) else none

/-- Write bit i (the callers only write in-range indices). -/
def BitSlice.set (b : BitSlice) (i : Nat) (v : Bool) : BitSlice :=
  if i < b.len then ⟨b.len, if v then insert i b.ones else b.ones.erase i⟩ else b

/-- count_ones of the slice. -/
def BitSlice.countOnes (b : BitSlice) : Nat := b.ones.card

/-- The opened storage of an mmap map index: the value-to-points hashmap (its lookup
function plus its entry list), the point-to-values map, and the tombstone bitmap. -/
structure MapStorage where
  lookup : Nat → HashLookup
  entries : List (Nat × List Nat)
  pointValues : List (List Nat)
  deleted : BitSlice

/-- MmapMapIndex: an optional storage (none when opened without a config file), the
tracked deleted count, and the build-time total of key-value pairs from the config. -/
structure MIndex where
  storage : Option MapStorage
  deletedCount : Nat
  totalKeyValuePairs : Nat

/-- Bit capacity of the deleted bitmap for n points: ceil(n / 8) bytes rounded up to
the next multiple of the 8-byte machine word, times 8 bits per byte. -/
def bitLen (n : Nat) : Nat := ((n + 7) / 8 + 7) / 8 * 8 * 8

/-- The bits set at build: one for every point whose value list is empty. -/
def buildOnes (ptv : List (List Nat)) : Finset Nat :=
  (Finset.range ptv.length).filter (fun i => ptv.getD i [] = [])

/-- Assoc-list lookup standing for the mmap hashmap get on well-formed entries. -/
def lookupAssoc : List (Nat × List Nat) → Nat → Option (List Nat)
  | [], _ => none
  | kv :: rest, k => if kv.1 = k then some kv.2 else lookupAssoc rest k

/-- The storage materialized by MmapMapIndex::build: the hashmap holds
values_to_points, the point-to-values map holds the per-point lists, and the bitmap
is zeroed except for a set bit at every point whose input value list is empty. -/
def buildStorage (ptv : List (List Nat)) (vtp : List (Nat × List Nat)) : MapStorage :=
  { lookup := fun v =>
      match lookupAssoc vtp v with
      | some pts => .found pts
      | none => .absent
    entries := vtp
    pointValues := ptv
    deleted := ⟨bitLen ptv.length, buildOnes ptv⟩ }

/-- MmapMapIndex::build followed by the open at its end: the config records the total
of the per-point value-list lengths, and open recounts the set bits of the bitmap
into deleted_count. -/
def build (ptv : List (List Nat)) (vtp : List (Nat × List Nat)) : MIndex :=
  { storage := some (buildStorage ptv vtp)
    deletedCount := BitSlice.countOnes ⟨bitLen ptv.length, buildOnes ptv⟩
    totalKeyValuePairs := (ptv.map List.length).sum }

/-- MmapMapIndex::open when the config file is absent: the empty-storage stub. -/
def openNoConfig : MIndex :=
  { storage := none, deletedCount := 0, totalKeyValuePairs := 0 }

/-- MmapMapIndex::remove_point: only when the bit is readable and currently clear is
it set, and only then is deleted_count incremented. -/
def removePoint (st : MIndex) (idx : Nat) : MIndex :=
  match st.storage with
  | none => st
  | some s =>
    match s.deleted.get idx with
    | some false =>
      { st with
        storage := some { s with deleted := s.deleted.set idx true }
        deletedCount := st.deletedCount + 1 }
    | _ => st

/-- Whether the tombstone bit of point i reads as set (a missing bit reads as clear,
matching the unwrap_or(false) in get_iterator). -/
def tombstoned (st : MIndex) (i : Nat) : Bool :=
  match st.storage with
  | none => false
  | some s => (s.deleted.get i).getD false

/-- MmapMapIndex::get_iterator: the value's point list filtered to drop ids whose
tombstone bit is set, where a missing bit counts as not deleted; empty on missing
storage, an absent key, or a read error. -/
def getIterator (st : MIndex) (v : Nat) : List Nat :=
  match st.storage with
  | none => []
  | some s =>
    match s.lookup v with
    | .found pts => pts.filter (fun i => !((s.deleted.get i).getD false))
    | .absent => []
    | .corrupt => []

/-- MmapMapIndex::get_count_for_value: the unfiltered entry length; none on missing
storage, an absent key, or a read error. -/
def getCountForValue (st : MIndex) (v : Nat) : Option Nat :=
  match st.storage with
  | none => none
  | some s =>
    match s.lookup v with
    | .found pts => some pts.length
    | .absent => none
    | .corrupt => none

/-- MmapMapIndex::get_values. -/
def getValues (st : MIndex) (idx : Nat) : Option (List Nat) :=
  match st.storage with
  | none => none
  | some s =>
    match s.deleted.get idx with
    | some false => s.pointValues[idx]?
    | _ => none

/-- MmapMapIndex::values_count. -/
def valuesCount (st : MIndex) (idx : Nat) : Option Nat :=
  match st.storage with
  | none => none
  | some s =>
    match s.deleted.get idx with
    | some false => (s.pointValues[idx]?).map List.length
    | _ => none

/-- MmapMapIndex::check_values_any. -/
def checkValuesAny (st : MIndex) (idx : Nat) (pred : Nat → Bool) : Bool :=
  match st.storage with
  | none => false
  | some s =>
    match s.deleted.get idx with
    | some false => ((s.pointValues[idx]?).getD []).any pred
    | _ => false

/-- MmapMapIndex::get_indexed_points: the point count minus the deleted count,
saturating at zero. -/
def getIndexedPoints (st : MIndex) : Nat :=
  match st.storage with
  | none => 0
  | some s => s.pointValues.length - st.deletedCount

/-- MmapMapIndex::get_values_count: the config total, untouched by deletes. -/
def getValuesCount (st : MIndex) : Nat := st.totalKeyValuePairs

/-- MmapMapIndex::get_unique_values_count: the hashmap keys count. -/
def getUniqueValuesCount (st : MIndex) : Nat :=
  match st.storage with
  | none => 0
  | some s => s.entries.length

/-- MmapMapIndex::iter_values_map: for each value, its live point ids, where a
missing tombstone bit counts as deleted (the unwrap_or(true) in the source). -/
def iterValuesMap (st : MIndex) : List (Nat × List Nat) :=
  match st.storage with
  | none => []
  | some s =>
    s.entries.map (fun kv =>
      (kv.1, kv.2.filter (fun i => !((s.deleted.get i).getD true))))

/-- MmapMapIndex::iter_counts_per_value: for each value, the count of live,
deduplicated point ids, where a missing tombstone bit counts as deleted (the
unwrap_or(true) in the source). -/
def iterCountsPerValue (st : MIndex) : List (Nat × Nat) :=
  match st.storage with
  | none => []
  | some s =>
    s.entries.map (fun kv =>
      (kv.1, (kv.2.filter (fun i => !((s.deleted.get i).getD true))).dedup.length))

end Qdrant

namespace Qdrant

/-! ### Order lemmas for the lexicographic key order -/

lemma Pt.leb_eq_not_ltb (a b : Pt) : Pt.leb a b = !Pt.ltb b a := by
  rcases a with ⟨av, ai⟩
  rcases b with ⟨bv, bi⟩
  rw [Bool.eq_iff_iff]
  simp only [Pt.leb, Pt.ltb, Bool.or_eq_true, Bool.and_eq_true, decide_eq_true_eq,
    Bool.not_eq_true', Bool.or_eq_false_iff, Bool.and_eq_false_iff,
    decide_eq_false_iff_not]
  omega

lemma Pt.ltb_eq_not_geb (a b : Pt) : Pt.ltb a b = !(Pt.ltb b a || decide (a = b)) := by
  rcases a with ⟨av, ai⟩
  rcases b with ⟨bv, bi⟩
  rw [Bool.eq_iff_iff]
  simp only [Pt.ltb, Bool.or_eq_true, Bool.and_eq_true, decide_eq_true_eq,
    Bool.not_eq_true', Bool.or_eq_false_iff, Bool.and_eq_false_iff,
    decide_eq_false_iff_not, Pt.mk.injEq]
  omega

lemma checkBoundaries_eq_not_invalid (s e : Bnd Pt) :
    checkBoundaries s e = !invalidBounds s e := by
  cases s <;> cases e <;>
    simp only [checkBoundaries, invalidBounds, Bool.not_false] <;>
    first
      | rfl
      | exact Pt.ltb_eq_not_geb _ _
      | exact Pt.leb_eq_not_ltb _ _

/-! ### C2: invalid translated intervals yield empty iterators, never a panic -/

/-- C2: for every numeric range whose translated key bounds form an invalid interval
(start greater than end, or start equal to end with both bounds exclusive), filter and
stream_range return an empty iterator (some [], where none would have marked the
panicking path). -/
theorem c2_invalid_range_empty (r : NumRange) (store : List Pt)
    (h : invalidBounds (asIndexKeyBounds r).1 (asIndexKeyBounds r).2 = true) :
    filterRange r store = some [] ∧ streamRange r store = some [] := by
  have hcb : checkBoundaries (asIndexKeyBounds r).1 (asIndexKeyBounds r).2 = false := by
    rw [checkBoundaries_eq_not_invalid, h]
    rfl
  constructor
  · simp [filterRange, hcb]
  · simp [streamRange, hcb]

/-- C2 witness: the range gte = 5, lte = 3 translates to the invalid interval
[Point(5, 0), Point(3, max)] and both query paths return empty on a nonempty store. -/
theorem c2_invalid_range_empty_witness :
    invalidBounds (asIndexKeyBounds ⟨none, none, some 5, some 3⟩).1
        (asIndexKeyBounds ⟨none, none, some 5, some 3⟩).2 = true ∧
      filterRange ⟨none, none, some 5, some 3⟩ [⟨4, 2⟩] = some [] ∧
      streamRange ⟨none, none, some 5, some 3⟩ [⟨4, 2⟩] = some [] :=
  ⟨by decide,
    (c2_invalid_range_empty ⟨none, none, some 5, some 3⟩ [⟨4, 2⟩] (by decide)).1,
    (c2_invalid_range_empty ⟨none, none, some 5, some 3⟩ [⟨4, 2⟩] (by decide)).2⟩

/-! ### C1: range-bound translation -/

/-- C1 counterexample: with gt = 1 and gte = 2 both set, as_index_key_bounds does not
produce the start bound Included(Point(gte, id MIN)) the claim states; the gt arm is
matched first. -/
theorem c1_counterexample :
    (asIndexKeyBounds ⟨none, some 1, some 2, none⟩).1 ≠ Bnd.included ⟨2, 0⟩ := by
  decide

/-- C1 amended: in as_index_key_bounds, gt takes precedence over gte (Excluded(gt, id
MAX)) and lt over lte (Excluded(lt, id MIN)); gte alone gives Included(gte, id MIN),
lte alone gives Included(lte, id MAX), and absent fields give Unbounded. In the
histogram bounds of range_cardinality the precedence is the opposite: gte overrides gt
and lte overrides lt. -/
theorem c1_key_bounds_translation (r : NumRange) :
    (∀ v, r.gt = some v → (asIndexKeyBounds r).1 = Bnd.excluded ⟨v, ptIdMax⟩) ∧
    (r.gt = none → ∀ v, r.gte = some v →
      (asIndexKeyBounds r).1 = Bnd.included ⟨v, 0⟩) ∧
    (r.gt = none → r.gte = none → (asIndexKeyBounds r).1 = Bnd.unbounded) ∧
    (∀ v, r.lt = some v → (asIndexKeyBounds r).2 = Bnd.excluded ⟨v, 0⟩) ∧
    (r.lt = none → ∀ v, r.lte = some v →
      (asIndexKeyBounds r).2 = Bnd.included ⟨v, ptIdMax⟩) ∧
    (r.lt = none → r.lte = none → (asIndexKeyBounds r).2 = Bnd.unbounded) ∧
    (∀ v, r.gte = some v → (cardBounds r).1 = Bnd.included v) ∧
    (r.gte = none → ∀ v, r.gt = some v → (cardBounds r).1 = Bnd.excluded v) ∧
    (∀ v, r.lte = some v → (cardBounds r).2 = Bnd.included v) ∧
    (r.lte = none → ∀ v, r.lt = some v → (cardBounds r).2 = Bnd.excluded v) := by
  refine ⟨?_, ?_, ?_, ?_, ?_, ?_, ?_, ?_, ?_, ?_⟩ <;>
    intros h1 h2 <;> try intros h3
  all_goals simp_all [asIndexKeyBounds, cardBounds]

/-- C1 amended witness: with all four fields set (lt = 3, gt = 1, gte = 2, lte = 4)
the key bounds use gt and lt while the cardinality bounds use gte and lte. -/
theorem c1_key_bounds_translation_witness :
    (asIndexKeyBounds ⟨some 3, some 1, some 2, some 4⟩).1 = Bnd.excluded ⟨1, ptIdMax⟩ ∧
    (asIndexKeyBounds ⟨some 3, some 1, some 2, some 4⟩).2 = Bnd.excluded ⟨3, 0⟩ ∧
    (cardBounds ⟨some 3, some 1, some 2, some 4⟩).1 = Bnd.included 2 ∧
    (cardBounds ⟨some 3, some 1, some 2, some 4⟩).2 = Bnd.included 4 :=
  ⟨(c1_key_bounds_translation ⟨some 3, some 1, some 2, some 4⟩).1 1 rfl,
    (c1_key_bounds_translation ⟨some 3, some 1, some 2, some 4⟩).2.2.2.1 3 rfl,
    (c1_key_bounds_translation ⟨some 3, some 1, some 2, some 4⟩).2.2.2.2.2.2.1 2 rfl,
    (c1_key_bounds_translation ⟨some 3, some 1, some 2, some 4⟩).2.2.2.2.2.2.2.2.1 4 rfl⟩

/-! ### C6: operations on an un-opened index -/

/-- C6: every query operation on an index opened without a config file returns an
empty result rather than an error: get_iterator an empty iterator, get_values and
values_count none, check_values_any false, get_indexed_points and
get_unique_values_count zero. -/
theorem c6_unopened_empty (v idx : Nat) (pred : Nat → Bool) :
    getIterator openNoConfig v = [] ∧
    getValues openNoConfig idx = none ∧
    valuesCount openNoConfig idx = none ∧
    checkValuesAny openNoConfig idx pred = false ∧
    getIndexedPoints openNoConfig = 0 ∧
    getUniqueValuesCount openNoConfig = 0 :=
  ⟨rfl, rfl, rfl, rfl, rfl, rfl⟩

/-! ### C8: per-entry read errors are swallowed -/

/-- C8: when the hashmap lookup for a value reports a per-entry read error,
get_count_for_value returns none and get_iterator returns an empty iterator; neither
propagates the error. -/
theorem c8_corrupt_lookup_absent (s : MapStorage) (dc t : Nat) (v : Nat)
    (h : s.lookup v = HashLookup.corrupt) :
    getCountForValue ⟨some s, dc, t⟩ v = none ∧
      getIterator ⟨some s, dc, t⟩ v = [] := by
  constructor
  · simp only [getCountForValue, h]
  · simp only [getIterator, h]

/-- C8 witness: a storage whose every lookup reports a read error answers none and
empty for value 5. -/
theorem c8_corrupt_lookup_absent_witness :
    getCountForValue ⟨some ⟨fun _ => HashLookup.corrupt, [], [], ⟨0, ∅⟩⟩, 0, 0⟩ 5
        = none ∧
      getIterator ⟨some ⟨fun _ => HashLookup.corrupt, [], [], ⟨0, ∅⟩⟩, 0, 0⟩ 5 = [] :=
  c8_corrupt_lookup_absent ⟨fun _ => HashLookup.corrupt, [], [], ⟨0, ∅⟩⟩ 0 0 5 rfl

end Qdrant

namespace Qdrant

/-! ### Helper lemmas on the build layout and remove_point -/

lemma bitLen_ge (n : Nat) : n ≤ bitLen n := by
  unfold bitLen
  omega

lemma lookupAssoc_mem {l : List (Nat × List Nat)} {k : Nat} {x : List Nat}
    (h : lookupAssoc l k = some x) : (k, x) ∈ l := by
  induction l with
  | nil => simp [lookupAssoc] at h
  | cons kv rest ih =>
    rw [lookupAssoc] at h
    by_cases hk : kv.1 = k
    · rw [if_pos hk] at h
      obtain rfl : kv.2 = x := by simpa using h
      subst hk
      exact List.mem_cons_self kv rest
    · rw [if_neg hk] at h
      exact List.mem_cons_of_mem _ (ih h)

/-- Closed form of a sequence of remove_point calls on an opened index: the entries,
lookup, point values, bit length and config total are untouched; the set bits gain
exactly the removed in-range indices; deleted_count gains the number of removed
in-range indices whose bit had been clear. -/
lemma foldl_removePoint_eq (removes : List Nat) (s : MapStorage) (dc t : Nat) :
    List.foldl removePoint (⟨some s, dc, t⟩ : MIndex) removes =
      ⟨some { s with deleted := ⟨s.deleted.len,
          s.deleted.ones ∪ removes.toFinset.filter (fun i => i < s.deleted.len)⟩ },
        dc + ((removes.toFinset.filter (fun i => i < s.deleted.len)) \
          s.deleted.ones).card,
        t⟩ := by
  induction removes generalizing s dc with
  | nil =>
    simp only [List.foldl_nil, List.toFinset_nil, Finset.filter_empty,
      Finset.union_empty, Finset.empty_sdiff, Finset.card_empty, Nat.add_zero]
  | cons r rest ih =>
    rw [List.foldl_cons, List.toFinset_cons, Finset.filter_insert]
    by_cases hr : r < s.deleted.len
    · rw [if_pos hr]
      by_cases hm : r ∈ s.deleted.ones
      · have hstep : removePoint (⟨some s, dc, t⟩ : MIndex) r = ⟨some s, dc, t⟩ := by
          simp [removePoint, BitSlice.get, hr, hm]
        rw [hstep, ih]
        have hones : s.deleted.ones ∪
            insert r (rest.toFinset.filter (fun i => i < s.deleted.len)) =
            s.deleted.ones ∪ rest.toFinset.filter (fun i => i < s.deleted.len) := by
          rw [Finset.union_insert, Finset.insert_eq_self.mpr]
          exact Finset.mem_union_left _ hm
        have hsd : insert r (rest.toFinset.filter (fun i => i < s.deleted.len)) \
            s.deleted.ones =
            rest.toFinset.filter (fun i => i < s.deleted.len) \ s.deleted.ones := by
          ext x
          simp only [Finset.mem_sdiff, Finset.mem_insert]
          constructor
          · rintro ⟨hx | hx, hnx⟩
            · exact absurd (hx ▸ hm) hnx
            · exact ⟨hx, hnx⟩
          · rintro ⟨hx, hnx⟩
            exact ⟨Or.inr hx, hnx⟩
        rw [hones, hsd]
      · have hstep : removePoint (⟨some s, dc, t⟩ : MIndex) r =
            ⟨some { s with deleted := ⟨s.deleted.len, insert r s.deleted.ones⟩ },
              dc + 1, t⟩ := by
          simp [removePoint, BitSlice.get, BitSlice.set, hr, hm]
        rw [hstep, ih]
        simp only [MIndex.mk.injEq, Option.some.injEq, MapStorage.mk.injEq,
          BitSlice.mk.injEq, true_and, and_true]
        constructor
        · rw [Finset.insert_union, Finset.union_insert]
        · have herase : rest.toFinset.filter (fun i => i < s.deleted.len) \
              insert r s.deleted.ones =
              ((rest.toFinset.filter (fun i => i < s.deleted.len)) \
                s.deleted.ones).erase r := by
            rw [Finset.sdiff_insert]
          rw [herase]
          have hins : insert r (rest.toFinset.filter (fun i => i < s.deleted.len)) \
              s.deleted.ones =
              insert r ((rest.toFinset.filter (fun i => i < s.deleted.len)) \
                s.deleted.ones) := by
            ext x
            simp only [Finset.mem_sdiff, Finset.mem_insert]
            constructor
            · rintro ⟨hx | hx, hnx⟩
              · exact Or.inl hx
              · exact Or.inr ⟨hx, hnx⟩
            · rintro (rfl | ⟨hx, hnx⟩)
              · exact ⟨Or.inl rfl, hm⟩
              · exact ⟨Or.inr hx, hnx⟩
          rw [hins]
          by_cases hrf : r ∈ (rest.toFinset.filter (fun i => i < s.deleted.len)) \
              s.deleted.ones
          · rw [Finset.insert_eq_self.mpr hrf]
            have h1 := Finset.card_erase_of_mem hrf
            have h2 : 1 ≤ ((rest.toFinset.filter (fun i => i < s.deleted.len)) \
                s.deleted.ones).card := Finset.card_pos.mpr ⟨r, hrf⟩
            omega
          · rw [Finset.card_insert_of_not_mem hrf, Finset.erase_eq_of_not_mem hrf]
            omega
    · rw [if_neg hr]
      have hstep : removePoint (⟨some s, dc, t⟩ : MIndex) r = ⟨some s, dc, t⟩ := by
        have hget : s.deleted.get r = none := by
          simp [BitSlice.get, hr]
        simp [removePoint, hget]
      rw [hstep, ih]

/-! ### C7: get_values_count is a build-time constant -/

/-- C7: get_values_count returns the build-time total of the per-point value-list
lengths, and no sequence of remove_point calls changes the returned value. -/
theorem c7_values_count_frame (ptv : List (List Nat)) (vtp : List (Nat × List Nat))
    (removes : List Nat) :
    getValuesCount (build ptv vtp) = (ptv.map List.length).sum ∧
      getValuesCount (List.foldl removePoint (build ptv vtp) removes) =
        (ptv.map List.length).sum := by
  constructor
  · rfl
  · rw [build, foldl_removePoint_eq]
    rfl

end Qdrant

namespace Qdrant

lemma getIterator_some (s : MapStorage) (dc t v : Nat) (pts : List Nat)
    (h : s.lookup v = HashLookup.found pts) :
    getIterator (⟨some s, dc, t⟩ : MIndex) v =
      pts.filter (fun i => !((s.deleted.get i).getD false)) := by
  simp only [getIterator, h]

/-! ### C3: get_iterator yields the stored list minus tombstones, in order -/

/-- C3: on a built index whose hashmap entries only hold ids of built points, after
any sequence of remove_point calls, get_iterator(v) yields exactly the ids of the
hashmap entry for v whose tombstone bit is not set, preserving the stored (ascending)
order; in particular no removed id is ever yielded, for any value. -/
theorem c3_get_iterator_tombstones (ptv : List (List Nat)) (vtp : List (Nat × List Nat))
    (removes : List Nat) (v : Nat) (pts : List Nat)
    (wf : ∀ kv ∈ vtp, ∀ i ∈ kv.2, i < ptv.length)
    (hpts : lookupAssoc vtp v = some pts) :
    getIterator (List.foldl removePoint (build ptv vtp) removes) v =
        pts.filter (fun i =>
          !(tombstoned (List.foldl removePoint (build ptv vtp) removes) i)) ∧
      (List.Pairwise (fun a b => a < b) pts →
        List.Pairwise (fun a b => a < b)
          (getIterator (List.foldl removePoint (build ptv vtp) removes) v)) ∧
      (∀ id ∈ removes,
        id ∉ getIterator (List.foldl removePoint (build ptv vtp) removes) v) := by
  rw [build, foldl_removePoint_eq]
  simp only [buildStorage, getIterator, tombstoned, hpts]
  refine ⟨trivial, fun hp => List.Pairwise.filter _ hp, ?_⟩
  intro id hid hmem
  rw [List.mem_filter] at hmem
  obtain ⟨hin, hf⟩ := hmem
  have hkv := lookupAssoc_mem hpts
  have hlt : id < ptv.length := wf (v, pts) hkv id hin
  have hltL : id < bitLen ptv.length := lt_of_lt_of_le hlt (bitLen_ge _)
  have hmemD : id ∈ buildOnes ptv ∪
      removes.toFinset.filter (fun i => i < bitLen ptv.length) :=
    Finset.mem_union_right _
      (Finset.mem_filter.mpr ⟨List.mem_toFinset.mpr hid, hltL⟩)
  simp [BitSlice.get, hltL, hmemD] at hf

/-- C3 witness: two points both carrying value 7; removing point 0 leaves
get_iterator(7) yielding only point 1. -/
theorem c3_get_iterator_tombstones_witness :
    getIterator (List.foldl removePoint (build [[7], [7]] [(7, [0, 1])]) [0]) 7 =
        [0, 1].filter (fun i =>
          !(tombstoned (List.foldl removePoint (build [[7], [7]] [(7, [0, 1])]) [0]) i)) ∧
      (List.Pairwise (fun a b => a < b) [0, 1] →
        List.Pairwise (fun a b => a < b)
          (getIterator (List.foldl removePoint (build [[7], [7]] [(7, [0, 1])]) [0]) 7)) ∧
      (∀ id ∈ [0],
        id ∉ getIterator (List.foldl removePoint (build [[7], [7]] [(7, [0, 1])]) [0]) 7) :=
  c3_get_iterator_tombstones [[7], [7]] [(7, [0, 1])] [0] 7 [0, 1]
    (by decide) (by decide)

/-! ### C4: remove_point idempotence and the deleted count -/

/-- C4 counterexample: point 0 is built with an empty value list, so its tombstone bit
is already set at build; the first remove_point(0) call does not increment
deleted_count (it stays 1, not deleted_count + 1 = 2), refuting the claim that the
first call on any in-bitmap id flips the bit and increments the count, and the formula
deleted_count = distinct removed ids + build-empty points (which would give 2). -/
theorem c4_counterexample :
    (build [[]] []).deletedCount = 1 ∧
      (removePoint (build [[]] []) 0).deletedCount = 1 ∧
      ¬((removePoint (build [[]] []) 0).deletedCount =
        (build [[]] []).deletedCount + 1) := by
  refine ⟨by decide, ?_, ?_⟩ <;> decide

/-- C4 amended: remove_point is idempotent; a call on an id whose bit reads clear
flips the bit and increments deleted_count by one, while a call on an id whose bit
reads set (in particular a build-empty point) changes nothing; consequently after any
sequence of removes, deleted_count equals the number of build-empty points plus the
number of distinct removed in-bitmap ids that were not tombstoned at build. -/
theorem c4_remove_point_semantics (ptv : List (List Nat)) (vtp : List (Nat × List Nat))
    (removes : List Nat) :
    (∀ (st : MIndex) (idx : Nat),
        removePoint (removePoint st idx) idx = removePoint st idx) ∧
      (∀ (s : MapStorage) (dc t idx : Nat), s.deleted.get idx = some false →
        removePoint (⟨some s, dc, t⟩ : MIndex) idx =
          ⟨some { s with deleted := s.deleted.set idx true }, dc + 1, t⟩) ∧
      (∀ (s : MapStorage) (dc t idx : Nat), s.deleted.get idx = some true →
        removePoint (⟨some s, dc, t⟩ : MIndex) idx = ⟨some s, dc, t⟩) ∧
      (List.foldl removePoint (build ptv vtp) removes).deletedCount =
        (buildOnes ptv).card +
          ((removes.toFinset.filter (fun i => i < bitLen ptv.length)) \
            buildOnes ptv).card := by
  refine ⟨?_, ?_, ?_, ?_⟩
  · intro st idx
    rcases st with ⟨sto, dc, t⟩
    cases sto with
    | none => rfl
    | some s =>
      cases hget : s.deleted.get idx with
      | none =>
        have h1 : removePoint (⟨some s, dc, t⟩ : MIndex) idx = ⟨some s, dc, t⟩ := by
          simp [removePoint, hget]
        rw [h1]
        exact h1
      | some b =>
        cases b with
        | true =>
          have h1 : removePoint (⟨some s, dc, t⟩ : MIndex) idx = ⟨some s, dc, t⟩ := by
            simp [removePoint, hget]
          rw [h1]
          exact h1
        | false =>
          have hlt : idx < s.deleted.len := by
            by_contra hn
            simp [BitSlice.get, hn] at hget
          have h1 : removePoint (⟨some s, dc, t⟩ : MIndex) idx =
              ⟨some { s with
                  deleted := ⟨s.deleted.len, insert idx s.deleted.ones⟩ },
                dc + 1, t⟩ := by
            simp [removePoint, hget, BitSlice.set, hlt]
          rw [h1]
          simp [removePoint, BitSlice.get, hlt]
  · intro s dc t idx h
    simp [removePoint, h]
  · intro s dc t idx h
    simp [removePoint, h]
  · rw [build, foldl_removePoint_eq]
    simp only [buildStorage, BitSlice.countOnes]

/-- C4 amended witness: building points 0 (empty) and 1 (value 5) then removing 0, 1
and 1 again yields deleted_count 2 = one build-empty point + one distinct non-empty
removed id; the flip and no-op cases are exercised on concrete bitmaps. -/
theorem c4_remove_point_semantics_witness :
    removePoint
        (removePoint (⟨some ⟨fun _ => HashLookup.absent, [], [], ⟨8, ∅⟩⟩, 0, 0⟩ : MIndex) 3) 3 =
      removePoint (⟨some ⟨fun _ => HashLookup.absent, [], [], ⟨8, ∅⟩⟩, 0, 0⟩ : MIndex) 3 ∧
    removePoint (⟨some ⟨fun _ => HashLookup.absent, [], [], ⟨8, ∅⟩⟩, 0, 0⟩ : MIndex) 3 =
      ⟨some ⟨fun _ => HashLookup.absent, [], [],
        BitSlice.set ⟨8, ∅⟩ 3 true⟩, 0 + 1, 0⟩ ∧
    removePoint (⟨some ⟨fun _ => HashLookup.absent, [], [], ⟨8, {3}⟩⟩, 1, 0⟩ : MIndex) 3 =
      ⟨some ⟨fun _ => HashLookup.absent, [], [], ⟨8, {3}⟩⟩, 1, 0⟩ ∧
    (List.foldl removePoint (build [[], [5]] [(5, [1])]) [0, 1, 1]).deletedCount =
      (buildOnes [[], [5]]).card +
        ((([0, 1, 1] : List Nat).toFinset.filter
          (fun i => i < bitLen (List.length [[], [5]]))) \ buildOnes [[], [5]]).card :=
  ⟨(c4_remove_point_semantics [[], [5]] [(5, [1])] [0, 1, 1]).1
      (⟨some ⟨fun _ => HashLookup.absent, [], [], ⟨8, ∅⟩⟩, 0, 0⟩ : MIndex) 3,
    (c4_remove_point_semantics [[], [5]] [(5, [1])] [0, 1, 1]).2.1
      ⟨fun _ => HashLookup.absent, [], [], ⟨8, ∅⟩⟩ 0 0 3 (by decide),
    (c4_remove_point_semantics [[], [5]] [(5, [1])] [0, 1, 1]).2.2.1
      ⟨fun _ => HashLookup.absent, [], [], ⟨8, {3}⟩⟩ 1 0 3 (by decide),
    (c4_remove_point_semantics [[], [5]] [(5, [1])] [0, 1, 1]).2.2.2⟩

end Qdrant

namespace Qdrant

/-! ### C5: range cardinality shape and clamping -/

/-- C5: range_cardinality returns exact 0 when max_values_per_point is 0; otherwise,
under the store and histogram invariants (at least one point, total values between
points and points times max-per-point, histogram min at most histogram max and at
most the total values), it returns an estimation whose max is min(points, histogram
max), whose exp is the rounded multi-value estimation clamped into [min, max], and in
which min ≤ exp ≤ max. -/
theorem c5_range_cardinality_clamp (points totalValues maxPerPoint est : Nat)
    (hist : Bnd Int → Bnd Int → Nat × Nat) (r : NumRange)
    (hM : maxPerPoint ≠ 0) (hP : 1 ≤ points) (hPU : points ≤ totalValues)
    (hUM : totalValues ≤ points * maxPerPoint)
    (hmm : (hist (cardBounds r).1 (cardBounds r).2).1 ≤
      (hist (cardBounds r).1 (cardBounds r).2).2)
    (hmU : (hist (cardBounds r).1 (cardBounds r).2).1 ≤ totalValues) :
    rangeCardinality points totalValues 0 hist est r = some (CardEst.exact 0) ∧
      ∃ ce, rangeCardinality points totalValues maxPerPoint hist est r = some ce ∧
        ce.max = min points (hist (cardBounds r).1 (cardBounds r).2).2 ∧
        ce.exp = min ce.max (max est ce.min) ∧
        ce.min ≤ ce.exp ∧ ce.exp ≤ ce.max := by
  constructor
  · simp [rangeCardinality]
  · have hnot : ¬(totalValues < points) := Nat.not_lt.mpr hPU
    have hMpos : 0 < maxPerPoint := Nat.pos_of_ne_zero hM
    set minH := (hist (cardBounds r).1 (cardBounds r).2).1 with hminH
    set maxH := (hist (cardBounds r).1 (cardBounds r).2).2 with hmaxH
    have hdivP : minH / maxPerPoint ≤ points := by
      have h1 : minH ≤ points * maxPerPoint := le_trans hmU hUM
      calc minH / maxPerPoint ≤ points * maxPerPoint / maxPerPoint :=
            Nat.div_le_div_right h1
        _ = points := Nat.mul_div_cancel points hMpos
    have hdivH : minH / maxPerPoint ≤ maxH := le_trans (Nat.div_le_self _ _) hmm
    have hminle :
        max (minH / maxPerPoint)
            (max (min 1 minH) (minH - (totalValues - points))) ≤
          min points maxH := by
      apply max_le
      · exact le_min hdivP hdivH
      · apply max_le
        · exact le_min (le_trans (min_le_left _ _) hP)
            (le_trans (min_le_right _ _) hmm)
        · exact le_min (by omega) (le_trans (Nat.sub_le _ _) hmm)
    refine ⟨⟨max (minH / maxPerPoint)
        (max (min 1 minH) (minH - (totalValues - points))),
      min (min points maxH)
        (max est (max (minH / maxPerPoint)
          (max (min 1 minH) (minH - (totalValues - points))))),
      min points maxH⟩, ?_, rfl, rfl, ?_, ?_⟩
    · simp only [rangeCardinality, if_neg hM, if_neg hnot]
    · exact le_min hminle (le_max_right _ _)
    · exact min_le_left _ _

/-- C5 witness: with 2 points, 3 total values, 2 values per point at most, a histogram
answer of (1, 3) and a rounded estimation of 5, the result is clamped into [1, 2]. -/
theorem c5_range_cardinality_clamp_witness :
    rangeCardinality 2 3 0 (fun _ _ => (1, 3)) 5 ⟨none, none, none, none⟩ =
        some (CardEst.exact 0) ∧
      ∃ ce, rangeCardinality 2 3 2 (fun _ _ => (1, 3)) 5 ⟨none, none, none, none⟩ =
          some ce ∧
        ce.max = min 2 3 ∧
        ce.exp = min ce.max (max 5 ce.min) ∧
        ce.min ≤ ce.exp ∧ ce.exp ≤ ce.max :=
  c5_range_cardinality_clamp 2 3 2 5 (fun _ _ => (1, 3)) ⟨none, none, none, none⟩
    (by decide) (by decide) (by decide) (by decide) (by decide) (by decide)

/-! ### C9: the unchecked subtraction in range_cardinality -/

/-- C9: whenever the total unique values count is at least the points count, the
unchecked usize subtraction in range_cardinality cannot underflow and the function
produces a result for every range; conversely, whenever max_values_per_point is
nonzero and the total is below the points count, the underflow (panic) branch is
taken. -/
theorem c9_subtraction_guard (points totalValues maxPerPoint est : Nat)
    (hist : Bnd Int → Bnd Int → Nat × Nat) (r : NumRange)
    (h : points ≤ totalValues) :
    (rangeCardinality points totalValues maxPerPoint hist est r).isSome = true ∧
      ∀ u, u < points → maxPerPoint ≠ 0 →
        rangeCardinality points u maxPerPoint hist est r = none := by
  constructor
  · by_cases hM : maxPerPoint = 0
    · simp [rangeCardinality, hM]
    · simp [rangeCardinality, hM, Nat.not_lt.mpr h]
  · intro u hu hM
    simp [rangeCardinality, hM, hu]

/-- C9 witness: with 2 points the subtraction is safe for 3 total values, and
underflows (panics) for 1 total value. -/
theorem c9_subtraction_guard_witness :
    (rangeCardinality 2 3 1 (fun _ _ => (0, 0)) 0 ⟨none, none, none, none⟩).isSome
        = true ∧
      rangeCardinality 2 1 1 (fun _ _ => (0, 0)) 0 ⟨none, none, none, none⟩ = none :=
  ⟨(c9_subtraction_guard 2 3 1 0 (fun _ _ => (0, 0)) ⟨none, none, none, none⟩
      (by decide)).1,
    (c9_subtraction_guard 2 3 1 0 (fun _ _ => (0, 0)) ⟨none, none, none, none⟩
      (by decide)).2 1 (by decide) (by decide)⟩

/-! ### C10: liveness disagreement on ids outside the bitmap -/

/-- C10: for a point id outside the range of the deleted bitmap (the bit read yields
none), the operations disagree: get_iterator(v) still yields the id whenever it is in
the stored entry (a missing bit is treated as not deleted), while iter_values_map and
iter_counts_per_value exclude it from their per-value id lists and counts (a missing
bit is treated as deleted). -/
theorem c10_missing_bit_disagreement (s : MapStorage) (dc t : Nat) (i : Nat)
    (hout : s.deleted.get i = none) :
    (∀ v pts, s.lookup v = HashLookup.found pts → i ∈ pts →
        i ∈ getIterator (⟨some s, dc, t⟩ : MIndex) v) ∧
      (∀ kv ∈ iterValuesMap (⟨some s, dc, t⟩ : MIndex), i ∉ kv.2) ∧
      (iterCountsPerValue (⟨some s, dc, t⟩ : MIndex) =
          s.entries.map (fun kv =>
            (kv.1, (kv.2.filter (fun j => !((s.deleted.get j).getD true))).dedup.length)) ∧
        ∀ kv ∈ s.entries, i ∉ kv.2.filter (fun j => !((s.deleted.get j).getD true))) := by
  refine ⟨?_, ?_, rfl, ?_⟩
  · intro v pts hl hin
    rw [getIterator_some s dc t v pts hl, List.mem_filter]
    exact ⟨hin, by simp [hout]⟩
  · intro kv hkv hmem
    simp only [iterValuesMap, List.mem_map] at hkv
    obtain ⟨kv0, _, rfl⟩ := hkv
    rw [List.mem_filter] at hmem
    simp [hout] at hmem
  · intro kv _ hmem
    rw [List.mem_filter] at hmem
    simp [hout] at hmem

/-- C10 witness: a zero-length bitmap makes every bit read none; value 7 stores point
3, which get_iterator yields while iter_values_map does not. -/
theorem c10_missing_bit_disagreement_witness :
    3 ∈ getIterator
        (⟨some ⟨fun v => if v = 7 then HashLookup.found [3] else HashLookup.absent,
          [(7, [3])], [], ⟨0, ∅⟩⟩, 0, 0⟩ : MIndex) 7 ∧
      ∀ kv ∈ iterValuesMap
          (⟨some ⟨fun v => if v = 7 then HashLookup.found [3] else HashLookup.absent,
            [(7, [3])], [], ⟨0, ∅⟩⟩, 0, 0⟩ : MIndex), 3 ∉ kv.2 :=
  ⟨(c10_missing_bit_disagreement
      ⟨fun v => if v = 7 then HashLookup.found [3] else HashLookup.absent,
        [(7, [3])], [], ⟨0, ∅⟩⟩ 0 0 3 rfl).1 7 [3] rfl (by decide),
    (c10_missing_bit_disagreement
      ⟨fun v => if v = 7 then HashLookup.found [3] else HashLookup.absent,
        [(7, [3])], [], ⟨0, ∅⟩⟩ 0 0 3 rfl).2.1⟩

end Qdrant
